import Mathlib

/-!
Verification of the query-generation pipeline of the text-sql repository
(`src/agent/query_generator.py`).

The embedding below is a faithful shallow model of the `QueryGenerator`
methods, restricted to ASCII text (all strings appearing in the claims are
ASCII):

* `clean_query` models `_clean_query` (the two anchored `re.sub` calls
  stripping markdown code fences, followed by `str.strip()`).
* `scanGo` / `findFields` model the identifier extraction
  `re.findall(r'[^a-zA-Z0-9_]([a-zA-Z][a-zA-Z0-9_]*)[^a-zA-Z0-9_]', query)`:
  a left-to-right, non-overlapping scan in which a captured identifier needs
  an unconsumed non-identifier character on its left and consumes the
  non-identifier character on its right.
* `validateV` / `validate_query` model `_validate_query`; the `Option VReason`
  result records which check produced the early `return False` (mirroring the
  log message the code emits at that point), and `validate_query` is the
  boolean the code actually returns.  The Python code builds `used_fields`
  as a set; the model keeps the extracted list, which has the same
  membership and the same emptiness, the only facts the code consults.
* `generate_fallback_query` models `_generate_fallback_query`, including the
  exact whitespace produced by the triple-quoted f-string.
* `generate_query` / `fix_query` model the repair loop; the two completion
  round trips are passed in as explicit `CompletionOutcome` oracles (the
  injected `llm.generate` capability), `failed` standing for a raised
  `CompletionError`/transport exception.  The model additionally reports the
  number of completion calls made and whether the fallback synthesizer ran.
-/

/-- Characters of the class `[a-zA-Z0-9_]` of the extraction pattern. -/
def isIdentChar (c : Char) : Bool :=
  ('a' ≤ c && c ≤ 'z') || ('A' ≤ c && c ≤ 'Z') || ('0' ≤ c && c ≤ '9') || c == '_'

/-- Characters of the class `[a-zA-Z]` opening a captured identifier. -/
def isLetterChar (c : Char) : Bool :=
  ('a' ≤ c && c ≤ 'z') || ('A' ≤ c && c ≤ 'Z')

/-- ASCII whitespace recognised by the regex class `\s` and by `str.strip()`. -/
def isSpaceChar (c : Char) : Bool :=
  c == ' ' || c == '\t' || c == '\n' || c == '\r' || c == '\x0b' || c == '\x0c'

/-! ### The fence-stripping step `_clean_query` -/

/-- Model of `re.sub(r'^```(?:sql)?\s*', '', query, flags=re.IGNORECASE)`:
if the string starts with three backticks, drop them, drop a following
case-insensitive `sql` if present, then drop the following whitespace run.
Otherwise the anchored pattern does not match and the string is unchanged. -/
def stripFenceStart (cs : List Char) : List Char :=
  match cs with
  | '`' :: '`' :: '`' :: rest =>
    let rest1 :=
      match rest with
      | a :: b :: c :: r =>
        if a.toLower == 's' && b.toLower == 'q' && c.toLower == 'l' then r else rest
      | _ => rest
    rest1.dropWhile isSpaceChar
  | _ => cs

/-- One attempted match of `\s*```$` starting at the head of `cs`: a
whitespace run, three backticks, then either the end of the string or a
single final newline (Python `$` without `re.MULTILINE` also matches just
before a trailing newline).  Returns what remains after the match. -/
def fenceEndHere (cs : List Char) : Option (List Char) :=
  match cs.dropWhile isSpaceChar with
  | '`' :: '`' :: '`' :: rest => if rest == [] || rest == ['\n'] then some rest else none
  | _ => none

/-- Model of `re.sub(r'\s*```$', '', query, flags=re.IGNORECASE)`: remove the
leftmost match of a whitespace run followed by a closing fence at the end. -/
def stripFenceEnd : List Char → List Char
  | [] => []
  | c :: rest =>
    match fenceEndHere (c :: rest) with
    | some rem => rem
    | none => c :: stripFenceEnd rest

/-- Model of Python `str.strip()` on ASCII text. -/
def pyStrip (cs : List Char) : List Char :=
  ((cs.dropWhile isSpaceChar).reverse.dropWhile isSpaceChar).reverse

/-- Model of `QueryGenerator._clean_query`. -/
def clean_query (q : String) : String :=
  String.mk (pyStrip (stripFenceEnd (stripFenceStart q.data)))

/-! ### Identifier extraction inside `_validate_query`

`re.findall(r'[^a-zA-Z0-9_]([a-zA-Z][a-zA-Z0-9_]*)[^a-zA-Z0-9_]', query)`
scans left to right; each match consumes one non-identifier character, the
captured identifier, and one further non-identifier character, and the next
match is searched after the consumed closing character.  The scan state
records what the character just before the current position can contribute. -/

inductive ScanSt where
  /-- The preceding character is an identifier character or was consumed:
  no match can open at the current position. -/
  | noFlank : ScanSt
  /-- The preceding character is an unconsumed non-identifier character:
  a match can open here. -/
  | flank : ScanSt
  /-- Inside a candidate identifier; `acc` holds its characters reversed. -/
  | run (acc : List Char) : ScanSt
deriving DecidableEq

/-- The extraction scan.  At the end of input the pattern cannot close a
match (it needs a non-identifier character after the identifier), so a run
reaching the end is discarded. -/
def scanGo : ScanSt → List Char → List String
  | _, [] => []
  | .noFlank, c :: rest =>
    if isIdentChar c then scanGo .noFlank rest else scanGo .flank rest
  | .flank, c :: rest =>
    if isLetterChar c then scanGo (.run [c]) rest
    else if isIdentChar c then scanGo .noFlank rest
    else scanGo .flank rest
  | .run acc, c :: rest =>
    if isIdentChar c then scanGo (.run (c :: acc)) rest
    else String.mk acc.reverse :: scanGo .noFlank rest

/-- All identifiers captured by the extraction pattern, in match order.
The scan starts with no left flank available: position 0 has no preceding
character, and the pattern needs one before the identifier. -/
def findFields (q : String) : List String :=
  scanGo .noFlank q.data

/-! ### The keyword, field and injection checks of `_validate_query` -/

/-- The `sql_keywords` set of `_validate_query`. -/
def sql_keywords : List String :=
  ["SELECT", "FROM", "WHERE", "GROUP", "ORDER", "BY", "HAVING",
   "JOIN", "INNER", "OUTER", "LEFT", "RIGHT", "ON", "AS", "IN",
   "LIKE", "IS", "NOT", "NULL", "AND", "OR", "CASE", "WHEN",
   "THEN", "ELSE", "END", "LIMIT", "OFFSET", "DISTINCT", "COUNT",
   "SUM", "AVG", "MIN", "MAX", "WITH"]

/-- The `sql_functions` set of `_validate_query`. -/
def sql_functions : List String :=
  ["COUNT", "SUM", "AVG", "MIN", "MAX", "ROUND", "DATE", "EXTRACT",
   "TO_CHAR", "TO_DATE", "CURRENT_DATE", "CURRENT_TIMESTAMP",
   "LOWER", "UPPER", "TRIM", "SUBSTRING", "IF", "CASE"]

/-- `used_fields - sql_keywords - sql_functions - schema_fields`:
the extracted identifiers that survive all three subtractions.  The Python
code only asks whether this collection is empty and which names it holds. -/
def invalid_fields (q : String) (schemaFields : List String) : List String :=
  (findFields q).filter fun f =>
    !(sql_keywords.contains f) && !(sql_functions.contains f) && !(schemaFields.contains f)

/-- Literal match of `pat` at the head of the text. -/
def litStart : List Char → List Char → Bool
  | [], _ => true
  | _ :: _, [] => false
  | p :: ps, c :: cs => p == c && litStart ps cs

/-- Does predicate `p` hold at some position of the text (the text argument
of `p` is the suffix starting there)?  This is `re.search` existence. -/
def searchFrom (p : List Char → Bool) : List Char → Bool
  | [] => p []
  | c :: rest => p (c :: rest) || searchFrom p rest

/-- Substring containment, Python `pat in hay`. -/
def hasSub (hay pat : List Char) : Bool :=
  searchFrom (litStart pat) hay

/-- `keyword.upper() in query.upper()` of the basic-keyword check. -/
def containsToken (q : String) (kw : String) : Bool :=
  hasSub (q.data.map Char.toUpper) (kw.data.map Char.toUpper)

/-- Case-insensitive match of `pat` at the head, returning the remainder. -/
def ciDrop : List Char → List Char → Option (List Char)
  | [], s => some s
  | _ :: _, [] => none
  | p :: ps, c :: cs => if p.toLower == c.toLower then ciDrop ps cs else none

/-- Match of `\s*` followed by a case-insensitive `pat` at the head. -/
def wsStarThenCI (pat : List Char) : List Char → Bool
  | [] => (ciDrop pat []).isSome
  | c :: rest => (ciDrop pat (c :: rest)).isSome || (isSpaceChar c && wsStarThenCI pat rest)

/-- Match of `;\s*WORD` at the head (a semicolon is unaffected by
`re.IGNORECASE`, so it is matched literally). -/
def semiThen (word : List Char) : List Char → Bool
  | [] => false
  | c :: rest => c == ';' && wsStarThenCI word rest

/-- Match of `\s+` followed by a case-insensitive `pat` at the head. -/
def wsPlusThenCI (pat : List Char) : List Char → Bool
  | [] => false
  | c :: rest => isSpaceChar c && wsStarThenCI pat rest

/-- Match of `UNION\s+SELECT` (case-insensitive) at the head. -/
def unionSelectAt (s : List Char) : Bool :=
  match ciDrop "union".data s with
  | some r => wsPlusThenCI "select".data r
  | none => false

/-- The injection-pattern loop of `_validate_query`: true when any of the
eight patterns `;\s*DROP`, `;\s*DELETE`, `;\s*UPDATE`, `;\s*INSERT`, `--`,
`/\*`, `\*/`, `UNION\s+SELECT` matches somewhere (all with `re.IGNORECASE`;
the first seven contain no letters outside the `;\s*WORD` words, so literal
matching of their punctuation is exact). -/
def hasInjection (q : String) : Bool :=
  searchFrom (semiThen "drop".data) q.data ||
  searchFrom (semiThen "delete".data) q.data ||
  searchFrom (semiThen "update".data) q.data ||
  searchFrom (semiThen "insert".data) q.data ||
  hasSub q.data "--".data ||
  hasSub q.data "/*".data ||
  hasSub q.data "*/".data ||
  searchFrom unionSelectAt q.data

/-- Which check of `_validate_query` fails first; each constructor
corresponds to one early `return False` site and the message logged there. -/
inductive VReason where
  | emptyQuery : VReason
  | missingKeywords : VReason
  | unknownFields (fields : List String) : VReason
  | unsafePattern : VReason
deriving DecidableEq

/-- Model of `_validate_query`, refined with the failing check:
`none` means the function returns `True`. -/
def validateV (q : String) (schemaFields : List String) : Option VReason :=
  if q == "" then some .emptyQuery
  else if !(containsToken q "SELECT" && containsToken q "FROM") then some .missingKeywords
  else if !(invalid_fields q schemaFields == []) then
    some (.unknownFields (invalid_fields q schemaFields))
  else if hasInjection q then some .unsafePattern
  else none

/-- The boolean `_validate_query` actually returns. -/
def validate_query (q : String) (schemaFields : List String) : Bool :=
  (validateV q schemaFields).isNone

/-! ### The fallback synthesizer `_generate_fallback_query` -/

/-- Python `", ".join(fields)`. -/
def joinComma : List String → String
  | [] => ""
  | [f] => f
  | f :: g :: fs => f ++ ", " ++ joinComma (g :: fs)

/-- Model of `_generate_fallback_query`: the first five schema columns in
order, interpolated into the triple-quoted f-string, whose literal newlines
and eight-space indentation are part of the returned value. -/
def generate_fallback_query (schemaFields : List String) (table_name : String) : String :=
  "\n        SELECT " ++ joinComma (schemaFields.take 5) ++
  "\n        FROM " ++ table_name ++ "\n        LIMIT 10\n        "

/-! ### The repair loop `generate_query` / `_fix_query`

The completion capability `self.llm.generate` is an injected external
dependency; its two round trips are modelled as explicit oracle values.
A completion either fails (a raised `CompletionError` or transport error)
or returns a duck-typed value: a plain string, a structured mapping, or
something else entirely (`.other`). -/

/-- A completion result as the code probes it. -/
inductive CResult where
  | text (s : String) : CResult
  | mapping (pairs : List (String × String)) : CResult
  | other : CResult
deriving DecidableEq

/-- One completion round trip: a value, or a raised exception. -/
inductive CompletionOutcome where
  | ok (r : CResult) : CompletionOutcome
  | failed : CompletionOutcome
deriving DecidableEq

/-- Python `mapping.get(key, "")`. -/
def dictGet (pairs : List (String × String)) (key : String) : String :=
  match pairs.lookup key with
  | some v => v
  | none => ""

/-- Result of `_fix_query` plus whether the fallback synthesizer ran. -/
structure FixResult where
  query : String
  usedFallback : Bool
deriving DecidableEq

/-- The duck typing `result if isinstance(result, str) else
result.get("response", "")` of `_fix_query`; `none` is the
`AttributeError` raised by `.get` on a non-string, non-mapping value. -/
def repair_extract : CResult → Option String
  | .text s => some s
  | .mapping ps => some (dictGet ps "response")
  | .other => none

/-- Model of `_fix_query`.  The whole body runs inside `try`: a raised
completion error, and the `AttributeError` from `result.get` when the
result is neither a string nor a mapping, are both caught locally and
answered with the fallback query.  Otherwise the repaired candidate is
cleaned, revalidated, and returned when valid, with the fallback on
failure.  (`_q` is the invalid candidate, used only inside the repair
prompt, which feeds the oracle.) -/
def fix_query (_q : String) (rep : CompletionOutcome)
    (schemaFields : List String) (table_name : String) : FixResult :=
  match rep with
  | .failed => ⟨generate_fallback_query schemaFields table_name, true⟩
  | .ok r =>
    match repair_extract r with
    | none => ⟨generate_fallback_query schemaFields table_name, true⟩
    | some f0 =>
      let fq := clean_query f0
      if validate_query fq schemaFields then ⟨fq, false⟩
      else ⟨generate_fallback_query schemaFields table_name, true⟩

/-- What `generate_query` hands back to its caller, instrumented with the
number of completion calls made and whether the fallback ran.  `query = none`
is the Python `None` returned by the top-level `except` handler. -/
structure GenResult where
  query : Option String
  calls : Nat
  usedFallback : Bool
deriving DecidableEq

/-- Model of `generate_query`.  The first completion call asks for the
structured shape `{"clickhouse_query": "str"}` and reads
`result.get("clickhouse_query", "")`: when the call raises, or the result
is not a mapping (so `.get` raises `AttributeError`), control reaches the
top-level `except` and the function returns `None`.  Otherwise the
candidate is cleaned; if it validates it is returned as is, else
`_fix_query` runs with the second completion outcome. -/
def generate_query (gen rep : CompletionOutcome)
    (schemaFields : List String) (table_name : String) : GenResult :=
  match gen with
  | .failed => ⟨none, 1, false⟩
  | .ok r =>
    match r with
    | .mapping ps =>
      let q := clean_query (dictGet ps "clickhouse_query")
      if validate_query q schemaFields then ⟨some q, 1, false⟩
      else
        let f := fix_query q rep schemaFields table_name
        ⟨some f.query, 2, f.usedFallback⟩
    | _ => ⟨none, 1, false⟩

/-! ### The GENERATE-mode prompt construction -/

/-- One schema entry: a column name mapped to a dict that may carry
`type` and `description` keys. -/
structure SchemaField where
  name : String
  ftype : Option String
  descr : Option String
deriving DecidableEq

/-- Model of `_format_schema_for_prompt`: one `- name (type): description`
line per column, with `Unknown` and `""` as the `.get` defaults. -/
def format_schema_for_prompt (schema : List SchemaField) : String :=
  schema.foldl
    (fun acc f =>
      acc ++ "- " ++ f.name ++ " (" ++ f.ftype.getD "Unknown" ++ "): " ++
        f.descr.getD "" ++ "\n")
    ""

/-- Python `word in query_lower` for one keyword. -/
def wordIn (ql : List Char) (w : String) : Bool :=
  hasSub ql w.data

/-- Model of `_extract_query_type`: the keyword buckets probed in order
against the lowercased question. -/
def extract_query_type (query : String) : String :=
  let ql := query.data.map Char.toLower
  if ["average", "avg", "sum", "count", "total", "mean", "median", "min", "max"].any
      (wordIn ql) then "aggregation"
  else if ["trend", "over time", "change", "growth", "increase", "decrease"].any
      (wordIn ql) then "trend analysis"
  else if ["top", "best", "worst", "highest", "lowest", "ranking"].any
      (wordIn ql) then "ranking"
  else if ["compare", "versus", "vs", "against", "difference"].any
      (wordIn ql) then "comparison"
  else if ["group", "by", "category", "segment", "breakdown", "split"].any
      (wordIn ql) then "grouping"
  else if ["filter", "where", "only", "exclude", "include"].any
      (wordIn ql) then "filtering"
  else "general"

/-- Model of `make_llama_3_prompt`: the Llama-3 chat template, with the
system block present only for a non-empty system prompt. -/
def make_llama_3_prompt (user_query : String) (system : String) : String :=
  let system_prompt :=
    if system == "" then ""
    else "<|start_header_id|>system<|end_header_id|>\n\n" ++ system ++ "<|eot_id|>"
  "<|begin_of_text|>" ++ system_prompt ++
    "<|start_header_id|>user<|end_header_id|>\n\n" ++ user_query ++
    "<|eot_id|><|start_header_id|>assistant<|end_header_id|>\n\n"

/-- The GENERATE-mode system prompt of `generate_query` (the triple-quoted
f-string, with its literal twelve-space indentation). -/
def generate_mode_system_prompt (table_name : String) (schema_str : String)
    (query_type : String) : String :=
  "You are a financial analyst with 15 years of experience writing SQL queries for ClickHouse database.\n            \n            The "
  ++ table_name ++
  " table has the following schema:\n            "
  ++ schema_str ++
  "\n            \n            Write a ClickHouse SQL query to answer the following question. Follow these rules:\n            \n            - Use only the fields that are necessary to answer the question\n            - Make sure to use proper ClickHouse SQL syntax, not SQLite or MySQL\n            - Do not use SELECT * except for very simple queries\n            - Always include appropriate filters to make results meaningful\n            - If aggregating data, include appropriate GROUP BY clauses\n            - If sorting is implied by the question, include ORDER BY clauses\n            - Use appropriate LIMIT clauses to prevent excessive results\n            - If the query looks for recent data, consider filtering by date fields\n            - Format the SQL query for readability with proper indentation\n            \n            The query appears to be a "
  ++ query_type ++
  " type query.\n            \n            Provide ONLY the SQL query as your response, with no explanations or other text.\n            "

/-- The full GENERATE-mode prompt construction performed by
`generate_query` before the first completion call. -/
def build_generate_prompt (user_query : String) (schema : List SchemaField)
    (table_name : String) : String :=
  make_llama_3_prompt user_query
    (generate_mode_system_prompt table_name (format_schema_for_prompt schema)
      (extract_query_type user_query))

/-! ### Auxiliary predicates used by the proofs

These predicates do not model repository code; they name character shapes
and containment notions that the theorems below reason with. -/

/-- The characters a fallback query is built from: identifier characters,
spaces, newlines and commas. -/
def plainChar (c : Char) : Bool :=
  isIdentChar c || c == ' ' || c == '\n' || c == ','

/-- Is the head character a case-insensitive `s`? -/
def headS : List Char → Bool
  | [] => false
  | c :: _ => c.toLower == 's'

/-- At least one whitespace character, then a case-insensitive `s`. -/
def wsThenS : List Char → Bool
  | [] => false
  | c :: rest => isSpaceChar c && (headS rest || wsThenS rest)

/-- Somewhere in the text: a case-insensitive `n`, then whitespace, then a
case-insensitive `s`: the contiguous core of any `UNION\s+SELECT` match. -/
def hasNwsS : List Char → Bool
  | [] => false
  | c :: rest => (c.toLower == 'n' && wsThenS rest) || hasNwsS rest

/-- A letter followed by identifier characters. -/
def identNameChars : List Char → Bool
  | [] => false
  | c :: rest => isLetterChar c && rest.all isIdentChar

/-- A well-formed SQL identifier, the shape assumed of column and table
names in the amended fallback claim. -/
def isIdentName (s : String) : Bool :=
  identNameChars s.data

/-- Case-insensitive substring containment, the `re.IGNORECASE` view of
`pat` occurring somewhere in `hay`. -/
def containsCI (hay pat : List Char) : Bool :=
  searchFrom (fun t => (ciDrop pat t).isSome) hay

/-! ### Character-level facts about ASCII lowercasing -/

/-- `Char.toLower` either leaves the character alone or maps an ASCII
capital (code 65..90) to its code plus 32. -/
theorem toLower_spec (c : Char) :
    c.toLower = c ∨ ∃ k, 65 ≤ k ∧ k ≤ 90 ∧ c.toLower = Char.ofNat (k + 32) := by
  unfold Char.toLower
  by_cases h : c.toNat ≥ 65 ∧ c.toNat ≤ 90
  · exact Or.inr ⟨c.toNat, h.1, h.2, by simp [h]⟩
  · exact Or.inl (by simp [h])

/-- Lowercasing keeps identifier characters inside `[a-zA-Z0-9_]`. -/
theorem toLower_ident {c : Char} (h : isIdentChar c = true) :
    isIdentChar c.toLower = true := by
  rcases toLower_spec c with h1 | ⟨k, hk1, hk2, hk3⟩
  · rwa [h1]
  · rw [hk3]; interval_cases k <;> decide

/-- Only a semicolon lowercases to a semicolon. -/
theorem eq_semi_of_toLower {c : Char} (h : c.toLower = ';') : c = ';' := by
  rcases toLower_spec c with h1 | ⟨k, hk1, hk2, hk3⟩
  · rwa [h1] at h
  · rw [hk3] at h; exfalso; interval_cases k <;> exact absurd h (by decide)

/-- Only a space lowercases to a space. -/
theorem eq_space_of_toLower {c : Char} (h : c.toLower = ' ') : c = ' ' := by
  rcases toLower_spec c with h1 | ⟨k, hk1, hk2, hk3⟩
  · rwa [h1] at h
  · rw [hk3] at h; exfalso; interval_cases k <;> exact absurd h (by decide)

/-- Identifier characters are not regex whitespace. -/
theorem not_space_of_ident {c : Char} (h : isIdentChar c = true) :
    isSpaceChar c = false := by
  cases hsc : isSpaceChar c
  · rfl
  · exfalso
    have hs : c = ' ' ∨ c = '\t' ∨ c = '\n' ∨ c = '\r' ∨ c = '\x0b' ∨ c = '\x0c' := by
      simpa [isSpaceChar, or_assoc] using hsc
    rcases hs with h1 | h1 | h1 | h1 | h1 | h1 <;> subst h1 <;> exact absurd h (by decide)

/-! ### Search positions -/

/-- A match at the head of the text gives a successful search. -/
theorem searchFrom_here {p : List Char → Bool} {b : List Char} (h : p b = true) :
    searchFrom p b = true := by
  cases b with
  | nil => simpa [searchFrom] using h
  | cons c r => simp [searchFrom, h]

/-- A match at any position gives a successful search. -/
theorem searchFrom_append {p : List Char → Bool} (a : List Char) {b : List Char}
    (h : p b = true) : searchFrom p (a ++ b) = true := by
  induction a with
  | nil => simpa using searchFrom_here h
  | cons c r ih => simp [searchFrom, ih]

/-- A successful search in a suffix stays successful with text prepended. -/
theorem searchFrom_mono_append {p : List Char → Bool} {a b : List Char}
    (h : searchFrom p b = true) : searchFrom p (a ++ b) = true := by
  induction a with
  | nil => simpa using h
  | cons c r ih => simp [searchFrom, ih]

/-- A successful search happens at some position. -/
theorem searchFrom_split {p : List Char → Bool} {cs : List Char}
    (h : searchFrom p cs = true) : ∃ a b, cs = a ++ b ∧ p b = true := by
  induction cs with
  | nil => exact ⟨[], [], rfl, by simpa [searchFrom] using h⟩
  | cons c r ih =>
    rw [searchFrom, Bool.or_eq_true] at h
    rcases h with h | h
    · exact ⟨[], c :: r, rfl, h⟩
    · obtain ⟨a, b, hab, hp⟩ := ih h
      exact ⟨c :: a, b, by rw [hab]; rfl, hp⟩

/-! ### Characters occurring in a fallback query

Identifier characters, spaces, newlines and commas are the only characters
a fallback query over identifier-named columns and table can contain.  None
of the punctuation opening the first seven injection patterns is among
them. -/

/-- `;\s*WORD` cannot match in text without a semicolon. -/
theorem semiThen_search_false {w : List Char} {cs : List Char}
    (h : ∀ c ∈ cs, plainChar c = true) : searchFrom (semiThen w) cs = false := by
  induction cs with
  | nil => rfl
  | cons c r ih =>
    have hc := h c (List.mem_cons_self c r)
    have hr : ∀ x ∈ r, plainChar x = true := fun x hx => h x (List.mem_cons_of_mem c hx)
    simp only [searchFrom, ih hr, Bool.or_false, semiThen]
    have hcc : (c == ';') = false := by
      cases hcc : c == ';'
      · rfl
      · exfalso
        have : c = ';' := by simpa using hcc
        subst this; exact absurd hc (by decide)
    rw [hcc, Bool.false_and]

/-- A literal pattern whose first character is not a fallback character
cannot match in a fallback query. -/
theorem litStart_search_false {p0 : Char} {pat : List Char} {cs : List Char}
    (hp : plainChar p0 = false) (h : ∀ c ∈ cs, plainChar c = true) :
    searchFrom (litStart (p0 :: pat)) cs = false := by
  induction cs with
  | nil => rfl
  | cons c r ih =>
    have hc := h c (List.mem_cons_self c r)
    have hr : ∀ x ∈ r, plainChar x = true := fun x hx => h x (List.mem_cons_of_mem c hx)
    simp only [searchFrom, ih hr, Bool.or_false, litStart]
    have hcc : (p0 == c) = false := by
      cases hcc : p0 == c
      · rfl
      · exfalso
        have : p0 = c := by simpa using hcc
        subst this; rw [hc] at hp; exact Bool.noConfusion hp
    rw [hcc, Bool.false_and]

/-! ### Absence of `UNION\s+SELECT`

Any match of `UNION\s+SELECT` contains, contiguously, a case-insensitive
`n`, a whitespace run, and a case-insensitive `s`.  The decision procedure
`hasNwsS` finds exactly that shape; it is an upper bound for the pattern
and is refutable segment by segment on a fallback query. -/

/-- A `\s*` match followed by a pattern opening with `s` either sees the
`s` at once or crosses whitespace first. -/
theorem wsStar_s_imp {ps : List Char} :
    ∀ t, wsStarThenCI ('s' :: ps) t = true → headS t = true ∨ wsThenS t = true := by
  intro t
  induction t with
  | nil => intro h; exact absurd h (by simp [wsStarThenCI, ciDrop])
  | cons c rest ih =>
    intro h
    rw [wsStarThenCI, Bool.or_eq_true] at h
    rcases h with h | h
    · left
      rw [ciDrop] at h
      split at h
      · next hc =>
        have h3 : 's'.toLower = c.toLower := by simpa using hc
        show (c.toLower == 's') = true
        rw [← h3]
        decide
      · exact absurd h (by simp)
    · rw [Bool.and_eq_true] at h
      rcases ih h.2 with h2 | h2
      · exact Or.inr (by simp [wsThenS, h.1, h2])
      · exact Or.inr (by simp [wsThenS, h.1, h2])

/-- A successful case-insensitive match locates the final pattern character
in the text: the text splits around a character that lowercases like it. -/
theorem ciDrop_last {p1 : Char} :
    ∀ (pat s rem : List Char), ciDrop (pat ++ [p1]) s = some rem →
      ∃ a c, s = a ++ c :: rem ∧ c.toLower = p1.toLower := by
  intro pat
  induction pat with
  | nil =>
    intro s rem h
    cases s with
    | nil => exact absurd h (by simp [ciDrop])
    | cons c cs =>
      rw [List.nil_append, ciDrop] at h
      split at h
      · next hc =>
        have hc2 : p1.toLower = c.toLower := by simpa using hc
        have hrem : cs = rem := by simpa [ciDrop] using h
        exact ⟨[], c, by rw [hrem]; rfl, hc2.symm⟩
      · exact absurd h (by simp)
  | cons p ps ih =>
    intro s rem h
    cases s with
    | nil => exact absurd h (by simp [ciDrop])
    | cons c cs =>
      rw [List.cons_append, ciDrop] at h
      split at h
      · obtain ⟨a, c5, hs, hlow⟩ := ih cs rem h
        exact ⟨c :: a, c5, by rw [hs]; rfl, hlow⟩
      · exact absurd h (by simp)

/-- An `n`-whitespace-`s` shape at a known position is found by `hasNwsS`. -/
theorem hasNwsS_at {c : Char} {rem : List Char} (hc : c.toLower = 'n')
    (hrem : wsThenS rem = true) :
    ∀ a, hasNwsS (a ++ c :: rem) = true := by
  intro a
  induction a with
  | nil => simp [hasNwsS, hc, hrem]
  | cons x a' ih => simp [hasNwsS, ih]

/-- A `\s+SELECT` match starts with the whitespace-then-`s` shape. -/
theorem wsPlus_select_imp {rem : List Char}
    (h : wsPlusThenCI "select".data rem = true) : wsThenS rem = true := by
  cases rem with
  | nil => exact absurd h (by simp [wsPlusThenCI])
  | cons d rest =>
    rw [wsPlusThenCI, Bool.and_eq_true] at h
    have h2 := wsStar_s_imp rest h.2
    rcases h2 with h2 | h2 <;> simp [wsThenS, h.1, h2]

/-- Any successful `UNION\s+SELECT` search yields the `n`-whitespace-`s`
shape somewhere in the text. -/
theorem unionSelect_imp_nws {cs : List Char}
    (h : searchFrom unionSelectAt cs = true) : hasNwsS cs = true := by
  obtain ⟨a, b, hab, hp⟩ := searchFrom_split h
  rw [unionSelectAt] at hp
  split at hp
  · next rem hdrop =>
    have hu : ciDrop ("unio".data ++ ['n']) b = some rem := hdrop
    obtain ⟨a2, c5, hb, hlow⟩ := ciDrop_last "unio".data b rem hu
    have hws : wsThenS rem = true := wsPlus_select_imp hp
    have hn : c5.toLower = 'n' := by rw [hlow]; decide
    subst hab hb
    have := hasNwsS_at hn hws (a ++ a2)
    simpa [List.append_assoc] using this
  · exact absurd hp (by simp)

theorem string_data_append (a b : String) : (a ++ b).data = a.data ++ b.data := rfl

/-- A character that does not lowercase to `n` cannot open the shape. -/
theorem hasNwsS_cons_skip {c : Char} (hc : (c.toLower == 'n') = false) (r : List Char) :
    hasNwsS (c :: r) = hasNwsS r := by
  simp [hasNwsS, hc]

/-- Crossing a run of identifier characters cannot produce the shape as
long as the text right after the run does not begin whitespace-then-`s`. -/
theorem identRun_nwsS {w : List Char} (hw : ∀ c ∈ w, isIdentChar c = true) :
    ∀ rest, wsThenS rest = false → hasNwsS (w ++ rest) = hasNwsS rest := by
  induction w with
  | nil => intro rest _; rfl
  | cons c w' ih =>
    intro rest hrest
    have hc : isIdentChar c = true := hw c (List.mem_cons_self c w')
    have hw' : ∀ x ∈ w', isIdentChar x = true := fun x hx => hw x (List.mem_cons_of_mem c hx)
    have hnext : wsThenS (w' ++ rest) = false := by
      cases w' with
      | nil => exact hrest
      | cons c2 w'' =>
        have hc2 : isIdentChar c2 = true := hw' c2 (List.mem_cons_self c2 w'')
        simp [wsThenS, not_space_of_ident hc2]
    show hasNwsS (c :: (w' ++ rest)) = hasNwsS rest
    rw [hasNwsS, hnext, Bool.and_false, Bool.false_or]
    exact ih hw' rest hrest

/-- Crossing the comma-joined field list cannot produce the shape when the
text after it does not begin whitespace-then-`s`. -/
theorem join_nwsS : ∀ fs : List String,
    (∀ f ∈ fs, ∀ c ∈ f.data, isIdentChar c = true) →
    ∀ zs, wsThenS zs = false → hasNwsS ((joinComma fs).data ++ zs) = hasNwsS zs := by
  intro fs
  induction fs with
  | nil => intro _ zs _; rfl
  | cons f gs ih =>
    intro hf zs hzs
    have hfc : ∀ c ∈ f.data, isIdentChar c = true :=
      hf f (List.mem_cons_self f gs)
    have hgs : ∀ g ∈ gs, ∀ c ∈ g.data, isIdentChar c = true :=
      fun g hg => hf g (List.mem_cons_of_mem f hg)
    cases gs with
    | nil =>
      show hasNwsS ((joinComma [f]).data ++ zs) = hasNwsS zs
      rw [joinComma]
      exact identRun_nwsS hfc zs hzs
    | cons g gs' =>
      show hasNwsS ((f ++ ", " ++ joinComma (g :: gs')).data ++ zs) = hasNwsS zs
      rw [string_data_append, string_data_append]
      have h1 : (", " : String).data = [',', ' '] := rfl
      rw [h1]
      rw [List.append_assoc, List.append_assoc]
      rw [identRun_nwsS hfc _ (by rfl)]
      show hasNwsS (',' :: ' ' :: ((joinComma (g :: gs')).data ++ zs)) = hasNwsS zs
      rw [hasNwsS_cons_skip (by decide), hasNwsS_cons_skip (by decide)]
      exact ih hgs zs hzs

/-! ### Exact behaviour of the extraction scan on structured text -/

/-- Letters are identifier characters. -/
theorem letter_ident {c : Char} (h : isLetterChar c = true) : isIdentChar c = true := by
  rw [isLetterChar, Bool.or_eq_true] at h
  rcases h with h | h <;> simp [isIdentChar, h]

/-- With no flank available, a run of identifier characters is skipped. -/
theorem scanGo_skip_run {w : List Char} (hw : ∀ c ∈ w, isIdentChar c = true) :
    ∀ rest, scanGo .noFlank (w ++ rest) = scanGo .noFlank rest := by
  induction w with
  | nil => intro rest; rfl
  | cons c w' ih =>
    intro rest
    have hc : isIdentChar c = true := hw c (List.mem_cons_self c w')
    have hw' : ∀ x ∈ w', isIdentChar x = true := fun x hx => hw x (List.mem_cons_of_mem c hx)
    show scanGo .noFlank (c :: (w' ++ rest)) = scanGo .noFlank rest
    rw [scanGo, if_pos hc]
    exact ih hw' rest

/-- Inside a run, identifier characters accumulate. -/
theorem scanGo_run_acc {w : List Char} (hw : ∀ c ∈ w, isIdentChar c = true) :
    ∀ acc rest, scanGo (.run acc) (w ++ rest) = scanGo (.run (w.reverse ++ acc)) rest := by
  induction w with
  | nil => intro acc rest; rfl
  | cons c w' ih =>
    intro acc rest
    have hc : isIdentChar c = true := hw c (List.mem_cons_self c w')
    have hw' : ∀ x ∈ w', isIdentChar x = true := fun x hx => hw x (List.mem_cons_of_mem c hx)
    show scanGo (.run acc) (c :: (w' ++ rest)) = _
    rw [scanGo, if_pos hc, ih hw']
    simp [List.append_assoc]

/-- With a flank available, an identifier followed by a non-identifier
character is captured, and that closing character is consumed. -/
theorem scanGo_emit {c : Char} {w : List Char} {d : Char} (hc : isLetterChar c = true)
    (hw : ∀ x ∈ w, isIdentChar x = true) (hd : isIdentChar d = false) :
    ∀ rest, scanGo .flank ((c :: w) ++ d :: rest) =
      String.mk (c :: w) :: scanGo .noFlank rest := by
  intro rest
  show scanGo .flank (c :: (w ++ d :: rest)) = _
  rw [scanGo, if_pos hc, scanGo_run_acc hw, scanGo, if_neg (by simp [hd])]
  simp [List.reverse_append]

/-- The scan yields nothing at the end of the text, whatever the state. -/
theorem scanGo_nil (st : ScanSt) : scanGo st [] = [] := by
  cases st <;> rfl

/-- A run of identifier characters reaching the end of the text is never
captured: the pattern needs a closing non-identifier character. -/
theorem scanGo_ident_tail {w : List Char} (hw : ∀ c ∈ w, isIdentChar c = true) :
    ∀ st, scanGo st w = [] := by
  induction w with
  | nil => exact scanGo_nil
  | cons c w' ih =>
    intro st
    have hc : isIdentChar c = true := hw c (List.mem_cons_self c w')
    have hw' : ∀ x ∈ w', isIdentChar x = true := fun x hx => hw x (List.mem_cons_of_mem c hx)
    cases st with
    | noFlank => rw [scanGo, if_pos hc]; exact ih hw' _
    | flank =>
      rw [scanGo]
      by_cases hl : isLetterChar c = true
      · rw [if_pos hl]; exact ih hw' _
      · rw [if_neg hl, if_pos hc]; exact ih hw' _
    | run acc => rw [scanGo, if_pos hc]; exact ih hw' _

/-- Appending a trailing run of identifier characters never changes what
the scan extracts, from any state. -/
theorem scanGo_append_ident {w : List Char} (hw : ∀ c ∈ w, isIdentChar c = true) :
    ∀ cs st, scanGo st (cs ++ w) = scanGo st cs := by
  intro cs
  induction cs with
  | nil =>
    intro st
    show scanGo st w = scanGo st []
    rw [scanGo_ident_tail hw st, scanGo_nil]
  | cons c r ih =>
    intro st
    cases st with
    | noFlank =>
      show scanGo .noFlank (c :: (r ++ w)) = scanGo .noFlank (c :: r)
      rw [scanGo, scanGo]
      by_cases hc : isIdentChar c = true
      · rw [if_pos hc, if_pos hc]; exact ih _
      · rw [if_neg hc, if_neg hc]; exact ih _
    | flank =>
      show scanGo .flank (c :: (r ++ w)) = scanGo .flank (c :: r)
      rw [scanGo, scanGo]
      by_cases hl : isLetterChar c = true
      · rw [if_pos hl, if_pos hl]; exact ih _
      · rw [if_neg hl, if_neg hl]
        by_cases hc : isIdentChar c = true
        · rw [if_pos hc, if_pos hc]; exact ih _
        · rw [if_neg hc, if_neg hc]; exact ih _
    | run acc =>
      show scanGo (.run acc) (c :: (r ++ w)) = scanGo (.run acc) (c :: r)
      rw [scanGo, scanGo]
      by_cases hc : isIdentChar c = true
      · rw [if_pos hc, if_pos hc]; exact ih _
      · rw [if_neg hc, if_neg hc, ih _]

/-! ### Identifier-shaped names -/

theorem string_mk_data (s : String) : String.mk s.data = s := rfl

/-- An identifier name splits as a letter plus an identifier-character run. -/
theorem identName_decomp {s : String} (h : isIdentName s = true) :
    ∃ c w, s.data = c :: w ∧ isLetterChar c = true ∧ ∀ x ∈ w, isIdentChar x = true := by
  rw [isIdentName] at h
  cases hd : s.data with
  | nil => rw [hd] at h; exact absurd h (by simp [identNameChars])
  | cons c w =>
    rw [hd, identNameChars, Bool.and_eq_true] at h
    exact ⟨c, w, rfl, h.1, by simpa [List.all_eq_true] using h.2⟩

/-- Every character of an identifier name is an identifier character. -/
theorem identName_chars {s : String} (h : isIdentName s = true) :
    ∀ c ∈ s.data, isIdentChar c = true := by
  obtain ⟨c, w, hd, hl, hw⟩ := identName_decomp h
  intro x hx
  rw [hd] at hx
  rcases List.mem_cons.mp hx with hx | hx
  · rw [hx]; exact letter_ident hl
  · exact hw x hx

/-! ### Scanning a fallback query -/

/-- From the flank state, a non-empty comma-joined list of identifier
names closed off by a newline-space pair captures every name. -/
theorem scanGo_flank_join : ∀ gs : List String, (∀ g ∈ gs, isIdentName g = true) →
    ∀ zs, gs ≠ [] → scanGo .flank ((joinComma gs).data ++ '\n' :: ' ' :: zs) =
      gs ++ scanGo .flank zs := by
  intro gs
  induction gs with
  | nil => intro _ _ h; exact absurd rfl h
  | cons g gs' ih =>
    intro hg zs _
    have hgname : isIdentName g = true := hg g (List.mem_cons_self g gs')
    obtain ⟨c, w, hdata, hletter, hident⟩ := identName_decomp hgname
    cases gs' with
    | nil =>
      show scanGo .flank ((joinComma [g]).data ++ '\n' :: ' ' :: zs) = g :: scanGo .flank zs
      rw [joinComma, hdata, scanGo_emit hletter hident (by decide)]
      have h1 : scanGo .noFlank (' ' :: zs) = scanGo .flank zs := rfl
      rw [h1, ← hdata, string_mk_data]
    | cons g2 gs'' =>
      have hg' : ∀ x ∈ g2 :: gs'', isIdentName x = true :=
        fun x hx => hg x (List.mem_cons_of_mem g hx)
      show scanGo .flank ((g ++ ", " ++ joinComma (g2 :: gs'')).data ++ '\n' :: ' ' :: zs) =
        (g :: g2 :: gs'') ++ scanGo .flank zs
      rw [string_data_append, string_data_append]
      have h1 : (", " : String).data = [',', ' '] := rfl
      rw [h1, List.append_assoc, List.append_assoc, hdata]
      rw [show ([',', ' '] : List Char) ++ ((joinComma (g2 :: gs'')).data ++ '\n' :: ' ' :: zs) =
        ',' :: (' ' :: ((joinComma (g2 :: gs'')).data ++ '\n' :: ' ' :: zs)) from rfl]
      rw [scanGo_emit hletter hident (by decide)]
      have h2 : ∀ X : List Char, scanGo .noFlank (' ' :: X) = scanGo .flank X := fun _ => rfl
      rw [h2, ih hg' zs (by simp), ← hdata, string_mk_data]
      rfl

/-- From the no-flank state (as left behind by the captured `SELECT`), the
first name of the joined list is skipped and the rest are captured. -/
theorem scanGo_noFlank_join : ∀ fs : List String, (∀ f ∈ fs, isIdentName f = true) →
    ∀ zs, fs ≠ [] → scanGo .noFlank ((joinComma fs).data ++ '\n' :: ' ' :: zs) =
      fs.drop 1 ++ scanGo .flank zs := by
  intro fs
  cases fs with
  | nil => intro _ _ h; exact absurd rfl h
  | cons f fs' =>
    intro hf zs _
    have hfname : isIdentName f = true := hf f (List.mem_cons_self f fs')
    have hfchars := identName_chars hfname
    cases fs' with
    | nil =>
      show scanGo .noFlank ((joinComma [f]).data ++ '\n' :: ' ' :: zs) =
        [] ++ scanGo .flank zs
      rw [joinComma, scanGo_skip_run hfchars]
      rfl
    | cons g gs' =>
      have hg' : ∀ x ∈ g :: gs', isIdentName x = true :=
        fun x hx => hf x (List.mem_cons_of_mem f hx)
      show scanGo .noFlank ((f ++ ", " ++ joinComma (g :: gs')).data ++ '\n' :: ' ' :: zs) =
        (g :: gs') ++ scanGo .flank zs
      rw [string_data_append, string_data_append]
      have h1 : (", " : String).data = [',', ' '] := rfl
      rw [h1, List.append_assoc, List.append_assoc, scanGo_skip_run hfchars]
      rw [show ([',', ' '] : List Char) ++ ((joinComma (g :: gs')).data ++ '\n' :: ' ' :: zs) =
        ',' :: (' ' :: ((joinComma (g :: gs')).data ++ '\n' :: ' ' :: zs)) from rfl]
      have h2 : ∀ X : List Char, scanGo .noFlank (',' :: X) = scanGo .flank X := fun _ => rfl
      have h3 : ∀ X : List Char, scanGo .flank (' ' :: X) = scanGo .flank X := fun _ => rfl
      rw [h2, h3]
      exact scanGo_flank_join (g :: gs') hg' zs (by simp)

/-! ### Validity of every well-formed fallback query -/

/-- A literal segment with no case-insensitive `n` cannot open the
`n`-whitespace-`s` shape. -/
theorem noN_skip : ∀ w : List Char, (w.all fun c => c.toLower != 'n') = true →
    ∀ r, hasNwsS (w ++ r) = hasNwsS r := by
  intro w
  induction w with
  | nil => intro _ r; rfl
  | cons c w' ih =>
    intro h r
    rw [List.all_cons, Bool.and_eq_true] at h
    have hc : (c.toLower == 'n') = false := by
      have := h.1
      cases hcc : c.toLower == 'n'
      · rfl
      · rw [bne] at this; rw [hcc] at this; exact absurd this (by decide)
    show hasNwsS (c :: (w' ++ r)) = hasNwsS r
    rw [hasNwsS_cons_skip hc, ih h.2 r]

theorem plain_of_all {cs : List Char} (h : cs.all plainChar = true) :
    ∀ c ∈ cs, plainChar c = true := by
  simpa [List.all_eq_true] using h

/-- Characters of the joined field list over identifier columns. -/
theorem joinComma_chars : ∀ fs : List String,
    (∀ f ∈ fs, ∀ c ∈ f.data, isIdentChar c = true) →
    ∀ c ∈ (joinComma fs).data, plainChar c = true := by
  intro fs
  induction fs with
  | nil => intro _ c hc; exact absurd hc (List.not_mem_nil c)
  | cons f gs ih =>
    intro hf c hc
    have hfc := hf f (List.mem_cons_self f gs)
    cases gs with
    | nil =>
      rw [joinComma] at hc
      simp [plainChar, hfc c hc]
    | cons g gs' =>
      rw [joinComma, string_data_append, string_data_append] at hc
      rcases List.mem_append.mp hc with hc | hc
      · rcases List.mem_append.mp hc with hc | hc
        · simp [plainChar, hfc c hc]
        · have h2 : c = ',' ∨ c = ' ' := by simpa using hc
          rcases h2 with h2 | h2 <;> subst h2 <;> decide
      · exact ih (fun x hx => hf x (List.mem_cons_of_mem f hx)) c hc

/-- The layout of a fallback query as character segments. -/
theorem fallback_data (schemaFields : List String) (table : String) :
    (generate_fallback_query schemaFields table).data =
      "\n        SELECT ".data ++ ((joinComma (schemaFields.take 5)).data ++
        ("\n        FROM ".data ++ (table.data ++ "\n        LIMIT 10\n        ".data))) := by
  simp only [generate_fallback_query, string_data_append, List.append_assoc]

theorem take5_ne {schemaFields : List String} (hne : schemaFields ≠ []) :
    schemaFields.take 5 ≠ [] := by
  cases schemaFields with
  | nil => exact absurd rfl hne
  | cons a l => simp

/-- What the extraction scan captures in a fallback query: `SELECT`, the
selected columns after the first, `FROM`, `LIMIT`.  The first column loses
its left flank to the match that captures `SELECT`, and the table name
loses its left flank to the match that captures `FROM`, so neither is
captured. -/
theorem fallback_findFields (schemaFields : List String) (table : String)
    (hne : schemaFields ≠ [])
    (hsf : ∀ f ∈ schemaFields.take 5, isIdentName f = true)
    (ht : ∀ c ∈ table.data, isIdentChar c = true) :
    findFields (generate_fallback_query schemaFields table) =
      "SELECT" :: ((schemaFields.take 5).drop 1 ++ ["FROM", "LIMIT"]) := by
  rw [findFields, fallback_data]
  have h1 : ∀ X : List Char, scanGo .noFlank ("\n        SELECT ".data ++ X) =
      "SELECT" :: scanGo .noFlank X := fun X => rfl
  rw [h1]
  have h2 : "\n        FROM ".data ++ (table.data ++ "\n        LIMIT 10\n        ".data) =
      '\n' :: ' ' :: ("       FROM ".data ++ (table.data ++ "\n        LIMIT 10\n        ".data)) :=
    rfl
  rw [h2, scanGo_noFlank_join (schemaFields.take 5) hsf _ (take5_ne hne)]
  have h3 : ∀ Y : List Char, scanGo .flank ("       FROM ".data ++ Y) =
      "FROM" :: scanGo .noFlank Y := fun Y => rfl
  rw [h3, scanGo_skip_run ht]
  have h4 : scanGo .noFlank ("\n        LIMIT 10\n        ".data) = ["LIMIT"] := rfl
  rw [h4]

/-- Every character of a well-formed fallback query is an identifier
character, a space, a newline or a comma. -/
theorem fallback_chars_plain (schemaFields : List String) (table : String)
    (hsf : ∀ f ∈ schemaFields.take 5, isIdentName f = true)
    (ht : ∀ c ∈ table.data, isIdentChar c = true) :
    ∀ c ∈ (generate_fallback_query schemaFields table).data, plainChar c = true := by
  intro c hc
  rw [fallback_data] at hc
  rcases List.mem_append.mp hc with hc | hc
  · exact plain_of_all (by decide) c hc
  rcases List.mem_append.mp hc with hc | hc
  · exact joinComma_chars _ (fun f hf => identName_chars (hsf f hf)) c hc
  rcases List.mem_append.mp hc with hc | hc
  · exact plain_of_all (by decide) c hc
  rcases List.mem_append.mp hc with hc | hc
  · simp [plainChar, ht c hc]
  · exact plain_of_all (by decide) c hc

/-- No injection pattern matches in a well-formed fallback query. -/
theorem fallback_no_injection (schemaFields : List String) (table : String)
    (hsf : ∀ f ∈ schemaFields.take 5, isIdentName f = true)
    (ht : ∀ c ∈ table.data, isIdentChar c = true) :
    hasInjection (generate_fallback_query schemaFields table) = false := by
  have hplain := fallback_chars_plain schemaFields table hsf ht
  have hnws : hasNwsS (generate_fallback_query schemaFields table).data = false := by
    rw [fallback_data]
    rw [noN_skip "\n        SELECT ".data (by decide)]
    rw [join_nwsS (schemaFields.take 5) (fun f hf => identName_chars (hsf f hf)) _ (by rfl)]
    rw [noN_skip "\n        FROM ".data (by decide)]
    rw [identRun_nwsS ht _ (by rfl)]
    decide
  have hUS : searchFrom unionSelectAt (generate_fallback_query schemaFields table).data
      = false := by
    cases hus : searchFrom unionSelectAt (generate_fallback_query schemaFields table).data
    · rfl
    · exact absurd (unionSelect_imp_nws hus) (by simp [hnws])
  rw [hasInjection]
  rw [semiThen_search_false hplain, semiThen_search_false hplain,
      semiThen_search_false hplain, semiThen_search_false hplain]
  rw [hasSub, hasSub, hasSub]
  rw [litStart_search_false (by decide) hplain, litStart_search_false (by decide) hplain,
      litStart_search_false (by decide) hplain, hUS]
  rfl

/-- The field check accepts a well-formed fallback query: everything the
scan captures is a keyword or a schema column. -/
theorem fallback_no_invalid (schemaFields : List String) (table : String)
    (hne : schemaFields ≠ [])
    (hsf : ∀ f ∈ schemaFields.take 5, isIdentName f = true)
    (ht : ∀ c ∈ table.data, isIdentChar c = true) :
    invalid_fields (generate_fallback_query schemaFields table) schemaFields = [] := by
  rw [invalid_fields, fallback_findFields schemaFields table hne hsf ht]
  rw [List.filter_eq_nil_iff]
  intro a ha
  rcases List.mem_cons.mp ha with h | h
  · subst h
    have hk : sql_keywords.contains "SELECT" = true := by decide
    have hk2 : ("SELECT" : String) ∈ sql_keywords := by decide
    simp [hk, hk2]
  rcases List.mem_append.mp h with h | h
  · have hmem : a ∈ schemaFields :=
      (((List.drop_sublist 1 _).trans (List.take_sublist 5 _)).subset) h
    have hcon : schemaFields.contains a = true := List.elem_eq_true_of_mem hmem
    simp [hcon, hmem]
  · rcases List.mem_cons.mp h with h | h
    · subst h
      have hk : sql_keywords.contains "FROM" = true := by decide
      have hk2 : ("FROM" : String) ∈ sql_keywords := by decide
      simp [hk, hk2]
    · have h2 : a = "LIMIT" := by simpa using h
      subst h2
      have hk : sql_keywords.contains "LIMIT" = true := by decide
      have hk2 : ("LIMIT" : String) ∈ sql_keywords := by decide
      simp [hk, hk2]

/-- The string-membership facts of the basic keyword check hold in any
fallback query: `SELECT` and `FROM` appear in the uppercased text. -/
theorem fallback_has_select (schemaFields : List String) (table : String) :
    containsToken (generate_fallback_query schemaFields table) "SELECT" = true := by
  rw [containsToken, fallback_data]
  simp only [List.map_append]
  exact searchFrom_append (List.map Char.toUpper "\n        ".data) rfl

theorem fallback_has_from (schemaFields : List String) (table : String) :
    containsToken (generate_fallback_query schemaFields table) "FROM" = true := by
  rw [containsToken, fallback_data]
  simp only [List.map_append]
  apply searchFrom_mono_append
  apply searchFrom_mono_append
  exact searchFrom_append (List.map Char.toUpper "\n        ".data) rfl

/-- The fallback query is never the empty string. -/
theorem fallback_ne_empty (schemaFields : List String) (table : String) :
    ((generate_fallback_query schemaFields table : String) == "") = false := by
  cases he : (generate_fallback_query schemaFields table : String) == ""
  · rfl
  · exfalso
    have h1 : generate_fallback_query schemaFields table = "" := by simpa using he
    have h2 := congrArg String.data h1
    rw [fallback_data] at h2
    exact absurd h2 (by simp)

/-- A well-formed fallback query passes `_validate_query`. -/
theorem fallback_valid (schemaFields : List String) (table : String)
    (hne : schemaFields ≠ [])
    (hsf : ∀ f ∈ schemaFields.take 5, isIdentName f = true)
    (ht : ∀ c ∈ table.data, isIdentChar c = true) :
    validate_query (generate_fallback_query schemaFields table) schemaFields = true := by
  rw [validate_query, validateV]
  rw [fallback_no_invalid schemaFields table hne hsf ht]
  simp [fallback_ne_empty schemaFields table, fallback_has_select schemaFields table,
    fallback_has_from schemaFields table, fallback_no_injection schemaFields table hsf ht]

/-! ### Candidates containing a drop-table payload -/

/-- Peeling one character off a case-insensitive match. -/
theorem ciDrop_cons {p : Char} {ps s : List Char}
    (h : (ciDrop (p :: ps) s).isSome = true) :
    ∃ c rest, s = c :: rest ∧ c.toLower = p.toLower ∧ (ciDrop ps rest).isSome = true := by
  cases s with
  | nil => exact absurd h (by simp [ciDrop])
  | cons c rest =>
    rw [ciDrop] at h
    split at h
    · next hc =>
      have hc2 : p.toLower = c.toLower := by simpa using hc
      exact ⟨c, rest, rfl, hc2.symm, h⟩
    · exact absurd h (by simp)

/-- A match of a longer pattern contains a match of its front part. -/
theorem ciDrop_of_append {xs ys : List Char} :
    ∀ s, (ciDrop (xs ++ ys) s).isSome = true → (ciDrop xs s).isSome = true := by
  induction xs with
  | nil => intro s _; simp [ciDrop]
  | cons p ps ih =>
    intro s h
    cases s with
    | nil => exact absurd h (by simp [ciDrop])
    | cons c rest =>
      rw [List.cons_append, ciDrop] at h
      rw [ciDrop]
      split at h
      · next hc => rw [if_pos hc]; exact ih rest h
      · exact absurd h (by simp)

/-- A candidate containing `; DROP TABLE` in any letter case matches the
first injection pattern `;\s*DROP`. -/
theorem semiDrop_of_dropTable {cs : List Char}
    (h : containsCI cs "; drop table".data = true) :
    searchFrom (semiThen "drop".data) cs = true := by
  obtain ⟨a, b, hab, hp⟩ := searchFrom_split h
  obtain ⟨c1, r1, hb1, hl1, hp1⟩ := ciDrop_cons hp
  obtain ⟨c2, r2, hb2, hl2, hp2⟩ := ciDrop_cons hp1
  have hdrop : (ciDrop "drop".data r2).isSome = true := by
    have h4 : ("rop table".data : List Char) = "rop".data ++ " table".data := rfl
    obtain ⟨c3, r3, hb3, hl3, hp3⟩ := ciDrop_cons hp2
    have : (ciDrop ("rop".data ++ " table".data) r3).isSome = true := by
      rw [← h4]; exact hp3
    have h5 := ciDrop_of_append r3 this
    rw [hb3, ciDrop]
    rw [if_pos (by simp [hl3])]
    exact h5
  have hc1 : c1 = ';' := eq_semi_of_toLower (by rw [hl1]; decide)
  have hc2 : c2 = ' ' := eq_space_of_toLower (by rw [hl2]; decide)
  have hsemi : semiThen "drop".data b = true := by
    rw [hb1, hc1, hb2, hc2, semiThen]
    have hws : wsStarThenCI "drop".data (' ' :: r2) = true := by
      rw [wsStarThenCI, Bool.or_eq_true]
      right
      rw [Bool.and_eq_true]
      refine ⟨by decide, ?_⟩
      cases r2 with
      | nil => exact absurd hdrop (by simp [ciDrop])
      | cons x xs => rw [wsStarThenCI, Bool.or_eq_true]; exact Or.inl hdrop
    simp [hws]
  rw [hab]
  exact searchFrom_append a hsemi

/-- Containing `; DROP TABLE` (any case) forces the validator to reject:
whichever check fires first returns `False`, and when the earlier checks
pass the injection check fires on `;\s*DROP`. -/
theorem validate_false_of_dropTable (q : String) (sf : List String)
    (h : containsCI q.data "; drop table".data = true) :
    validate_query q sf = false := by
  have hsemi := semiDrop_of_dropTable h
  rw [validate_query, validateV]
  by_cases h1 : (q == "") = true
  · rw [if_pos h1]; rfl
  rw [if_neg h1]
  by_cases h2 : (!(containsToken q "SELECT" && containsToken q "FROM")) = true
  · rw [if_pos h2]; rfl
  rw [if_neg h2]
  by_cases h3 : (!(invalid_fields q sf == [])) = true
  · rw [if_pos h3]; rfl
  rw [if_neg h3]
  have h4 : hasInjection q = true := by rw [hasInjection, hsemi]; rfl
  rw [if_pos h4]
  rfl

/-- When the earlier checks pass, the reason reported for a drop-table
payload is the unsafe-pattern one. -/
theorem unsafe_reason_of_dropTable (q : String) (sf : List String)
    (h : containsCI q.data "; drop table".data = true)
    (h1 : (q == "") = false)
    (h2 : (containsToken q "SELECT" && containsToken q "FROM") = true)
    (h3 : invalid_fields q sf = []) :
    validateV q sf = some .unsafePattern := by
  have hsemi := semiDrop_of_dropTable h
  rw [validateV]
  rw [if_neg (by simp [h1]), if_neg (by simp [h2]), if_neg (by simp [h3])]
  have h4 : hasInjection q = true := by rw [hasInjection, hsemi]; rfl
  rw [if_pos h4]

/-! ### Unknown fields are collected and reported -/

theorem contains_eq_false_of_not_mem {l : List String} {a : String} (h : a ∉ l) :
    l.contains a = false := by
  cases hc : l.contains a
  · rfl
  · exact absurd (List.mem_of_elem_eq_true hc) h

/-- Any extracted identifier outside the keyword, function and schema sets
lands in `invalid_fields`. -/
theorem mem_invalid_fields {q : String} {sf : List String} {ident : String}
    (hmem : ident ∈ findFields q)
    (hk : ident ∉ sql_keywords) (hf : ident ∉ sql_functions) (hs : ident ∉ sf) :
    ident ∈ invalid_fields q sf := by
  rw [invalid_fields]
  apply List.mem_filter.mpr
  refine ⟨hmem, ?_⟩
  rw [contains_eq_false_of_not_mem hk, contains_eq_false_of_not_mem hf,
    contains_eq_false_of_not_mem hs]
  rfl

/-- When the emptiness and keyword checks pass and some extracted
identifier is outside all three sets, the validator rejects with the
unknown-fields reason, and that identifier is among the reported names. -/
theorem unknown_field_rejects {q : String} {sf : List String} {ident : String}
    (hne : (q == "") = false)
    (hkw : (containsToken q "SELECT" && containsToken q "FROM") = true)
    (hmem : ident ∈ findFields q)
    (hk : ident ∉ sql_keywords) (hf : ident ∉ sql_functions) (hs : ident ∉ sf) :
    validate_query q sf = false ∧
      validateV q sf = some (.unknownFields (invalid_fields q sf)) ∧
      ident ∈ invalid_fields q sf := by
  have hinv := mem_invalid_fields hmem hk hf hs
  have hinvne : invalid_fields q sf ≠ [] := List.ne_nil_of_mem hinv
  have hv : validateV q sf = some (.unknownFields (invalid_fields q sf)) := by
    rw [validateV, if_neg (by simp [hne]), if_neg (by simp [hkw]),
      if_pos (by simp [hinvne])]
  exact ⟨by rw [validate_query, hv]; rfl, hv, hinv⟩

/-! ## The claims -/

/-- C1, counterexample: with the table name `t--t` (legal per the claim,
which quantifies over every table name), the fallback query fails its own
validation: the scan captures the stray `t` after the dashes as an unknown
field, and the `--` would in any case trip the injection check. -/
theorem fallback_arbitrary_table_invalid :
    validate_query (generate_fallback_query ["col"] "t--t") ["col"] = false := by decide

/-- C1 (amended): for every non-empty schema whose column names are
identifiers (a letter then letters, digits or underscores) and every
identifier table name, the synthesized fallback query passes
`_validate_query` against that schema. -/
theorem synthesized_fallback_validates (schemaFields : List String) (table : String)
    (hne : schemaFields ≠ [])
    (hsf : ∀ f ∈ schemaFields, isIdentName f = true)
    (ht : isIdentName table = true) :
    validate_query (generate_fallback_query schemaFields table) schemaFields = true :=
  fallback_valid schemaFields table hne
    (fun f hf => hsf f ((List.take_sublist 5 schemaFields).subset hf))
    (identName_chars ht)

/-- C1, witness: the spec's own sales scenario. -/
theorem synthesized_fallback_validates_witness :
    validate_query
      (generate_fallback_query ["Product_ID", "Sale_Date", "Product_Category"] "sales_data")
      ["Product_ID", "Sale_Date", "Product_Category"] = true :=
  synthesized_fallback_validates _ _ (by decide) (by decide) (by decide)

/-- C2, counterexample: a completion failure during the first generation
call is caught by the top-level handler of `generate_query`, which returns
`None` — the schema is non-empty, yet no query string is produced and the
fallback never runs. -/
theorem completion_error_generation_returns_none :
    generate_query .failed (.ok (.text "SELECT a FROM t")) ["a"] "t" =
      ⟨none, 1, false⟩ := rfl

/-- C2 (amended): a completion failure during the repair call is caught
locally inside `_fix_query` and answered with the fallback query, but a
completion failure during the initial generation call propagates to the
top-level handler of `generate_query`, which aborts and returns `None`
rather than continuing toward repair or fallback. -/
theorem completion_error_paths (sf : List String) (t : String) (q : String)
    (rep : CompletionOutcome) :
    fix_query q .failed sf t = ⟨generate_fallback_query sf t, true⟩ ∧
    generate_query .failed rep sf t = ⟨none, 1, false⟩ :=
  ⟨rfl, rfl⟩

/-- C3: when the first completion result fails validation and the repaired
candidate passes it, the loop returns the repaired candidate after exactly
two completion calls and without the fallback. -/
theorem repair_loop_two_calls (ps : List (String × String)) (r2 : CResult)
    (sf : List String) (t : String) (f0 : String)
    (h1 : validate_query (clean_query (dictGet ps "clickhouse_query")) sf = false)
    (hex : repair_extract r2 = some f0)
    (h2 : validate_query (clean_query f0) sf = true) :
    generate_query (.ok (.mapping ps)) (.ok r2) sf t =
      ⟨some (clean_query f0), 2, false⟩ := by
  simp [generate_query, fix_query, h1, hex, h2]

/-- C3, witness: a first candidate without `SELECT`/`FROM`, repaired into a
schema-valid query. -/
theorem repair_loop_two_calls_witness :
    generate_query (.ok (.mapping [("clickhouse_query", "bad")]))
      (.ok (.text "SELECT Region FROM t")) ["Region"] "t" =
      ⟨some (clean_query "SELECT Region FROM t"), 2, false⟩ :=
  repair_loop_two_calls _ _ _ _ _ (by decide) rfl (by decide)

/-- C4, counterexample: `SELECT Region FROM t` references the bare
identifier `t`, which is neither a schema column nor a keyword nor a
function name, yet validation succeeds and no unknown-field reason is
produced: the extraction pattern needs a non-identifier character after
the identifier, and `t` runs to the end of the string. -/
theorem trailing_identifier_not_reported :
    validate_query "SELECT Region FROM t" ["Region"] = true ∧
    validateV "SELECT Region FROM t" ["Region"] = none ∧
    "t" ∉ ["Region"] ∧ "t" ∉ sql_keywords ∧ "t" ∉ sql_functions := by decide

/-- C4 (amended): for every candidate that passes the emptiness and
`SELECT`/`FROM` checks, every identifier actually captured by the
extraction pattern that is outside the keyword set, the function set and
the schema columns makes validation fail with the unknown-fields reason,
and that identifier appears verbatim among the reported fields. -/
theorem unknown_identifier_reported {q : String} {sf : List String} {ident : String}
    (hne : (q == "") = false)
    (hkw : (containsToken q "SELECT" && containsToken q "FROM") = true)
    (hmem : ident ∈ findFields q)
    (hk : ident ∉ sql_keywords) (hf : ident ∉ sql_functions) (hs : ident ∉ sf) :
    validate_query q sf = false ∧
      validateV q sf = some (.unknownFields (invalid_fields q sf)) ∧
      ident ∈ invalid_fields q sf :=
  unknown_field_rejects hne hkw hmem hk hf hs

/-- C4, witness: `foo` is captured (flanked by a space and a space) and
reported. -/
theorem unknown_identifier_reported_witness :
    validate_query "SELECT a, foo FROM t " ["a"] = false ∧
      validateV "SELECT a, foo FROM t " ["a"] =
        some (.unknownFields (invalid_fields "SELECT a, foo FROM t " ["a"])) ∧
      "foo" ∈ invalid_fields "SELECT a, foo FROM t " ["a"] :=
  unknown_identifier_reported (by decide) (by decide) (by decide) (by decide)
    (by decide) (by decide)

/-- C5, counterexample: `; DROP TABLE users` contains the payload, and
validation indeed fails — but with the missing-keywords reason, not an
unsafe-pattern reason: the keyword check returns `False` before the
injection check runs. -/
theorem drop_table_reason_not_unsafe :
    validate_query "; DROP TABLE users" [] = false ∧
    validateV "; DROP TABLE users" [] = some .missingKeywords ∧
    validateV "; DROP TABLE users" [] ≠ some .unsafePattern := by decide

/-- C5 (amended): every candidate containing `; DROP TABLE` in any letter
case fails validation for every schema; the reported reason is the
unsafe-pattern one exactly when the emptiness, keyword and unknown-field
checks all pass, since an earlier failing check returns first. -/
theorem drop_table_rejected (q : String) (sf : List String)
    (h : containsCI q.data "; drop table".data = true) :
    validate_query q sf = false ∧
      ((q == "") = false → (containsToken q "SELECT" && containsToken q "FROM") = true →
        invalid_fields q sf = [] → validateV q sf = some .unsafePattern) :=
  ⟨validate_false_of_dropTable q sf h,
   fun h1 h2 h3 => unsafe_reason_of_dropTable q sf h h1 h2 h3⟩

/-- C5, witness: a candidate that passes every earlier check and is
rejected with the unsafe-pattern reason. -/
theorem drop_table_rejected_witness :
    validate_query "SELECT a FROM b; DROP TABLE b" ["a", "b"] = false :=
  (drop_table_rejected "SELECT a FROM b; DROP TABLE b" ["a", "b"] (by decide)).1

/-- C6, counterexample: the fallback for the sales scenario is not the
single-line string the claim demands — the triple-quoted f-string keeps
its newlines and eight-space indentation. -/
theorem fallback_sales_scenario_not_single_line :
    generate_fallback_query ["Product_ID", "Sale_Date", "Product_Category"] "sales_data" ≠
      "SELECT Product_ID, Sale_Date, Product_Category FROM sales_data LIMIT 10" := by
  decide

/-- C6 (amended): for the sales scenario the fallback equals exactly the
multi-line string `\n        SELECT Product_ID, Sale_Date,
Product_Category\n        FROM sales_data\n        LIMIT 10\n        `,
that is, the claimed projection, source and limit with the f-string's
newline-and-indentation layout around them. -/
theorem fallback_sales_scenario_text :
    generate_fallback_query ["Product_ID", "Sale_Date", "Product_Category"] "sales_data" =
      "\n        SELECT Product_ID, Sale_Date, Product_Category\n        FROM sales_data\n        LIMIT 10\n        " := by
  decide

/-- C7: stripping the code fence from the fenced candidate leaves exactly
`SELECT Region FROM sales_data`, and the pipeline validates precisely that
stripped string (accepting it unchanged on the first attempt). -/
theorem fence_stripping_scenario :
    clean_query "```sql\nSELECT Region FROM sales_data\n```" =
      "SELECT Region FROM sales_data" ∧
    generate_query
      (.ok (.mapping [("clickhouse_query", "```sql\nSELECT Region FROM sales_data\n```")]))
      (.ok .other) ["Region"] "sales_data" =
      ⟨some "SELECT Region FROM sales_data", 1, false⟩ := by decide

/-- C8, counterexample: a non-string, non-mapping first completion result
makes `result.get` raise `AttributeError`, which the top-level handler
turns into `None`: no repair call happens (one completion call in total)
and the fallback never runs, so the pipeline does not proceed toward
repair or fallback as the claim states. -/
theorem non_mapping_completion_returns_none :
    generate_query (.ok .other) (.ok (.mapping [("response", "SELECT a FROM t")]))
      ["a"] "t" = ⟨none, 1, false⟩ := rfl

/-- C8 (amended): an empty or missing `clickhouse_query` value in a
structured first result proceeds through validation failure into the
repair path without raising; a plain-string or non-mapping first result is
caught and the pipeline returns `None`; in the repair call all three
malformed shapes are tolerated and resolve to the repair validation or the
fallback. -/
theorem malformed_completion_tolerance (ps ps2 : List (String × String))
    (rep : CompletionOutcome) (sf : List String) (t : String) (q : String)
    (hempty : dictGet ps "clickhouse_query" = "")
    (hmiss : dictGet ps2 "response" = "") :
    generate_query (.ok (.mapping ps)) rep sf t =
      ⟨some (fix_query "" rep sf t).query, 2, (fix_query "" rep sf t).usedFallback⟩ ∧
    (∀ s : String, generate_query (.ok (.text s)) rep sf t = ⟨none, 1, false⟩) ∧
    generate_query (.ok .other) rep sf t = ⟨none, 1, false⟩ ∧
    fix_query q (.ok (.mapping ps2)) sf t = ⟨generate_fallback_query sf t, true⟩ ∧
    fix_query q (.ok .other) sf t = ⟨generate_fallback_query sf t, true⟩ := by
  refine ⟨?_, fun s => rfl, rfl, ?_, rfl⟩
  · simp only [generate_query, hempty]
    have hval : validate_query (clean_query "") sf = false := rfl
    rw [hval]
    simp
    exact ⟨rfl, rfl⟩
  · simp only [fix_query, repair_extract, hmiss]
    have hval : validate_query (clean_query "") sf = false := rfl
    rw [hval]
    simp

/-- C8, witness: an empty mapping misses the key, so the first call yields
the empty candidate and the loop proceeds into repair; the malformed
repair results resolve to the fallback. -/
theorem malformed_completion_tolerance_witness :
    generate_query (.ok (.mapping [])) .failed ["a"] "t" =
      ⟨some (fix_query "" .failed ["a"] "t").query, 2,
        (fix_query "" .failed ["a"] "t").usedFallback⟩ ∧
    (∀ s : String, generate_query (.ok (.text s)) .failed ["a"] "t" = ⟨none, 1, false⟩) ∧
    generate_query (.ok .other) .failed ["a"] "t" = ⟨none, 1, false⟩ ∧
    fix_query "x" (.ok (.mapping [("other", "y")])) ["a"] "t" =
      ⟨generate_fallback_query ["a"] "t", true⟩ ∧
    fix_query "x" (.ok .other) ["a"] "t" = ⟨generate_fallback_query ["a"] "t", true⟩ :=
  malformed_completion_tolerance [] [("other", "y")] .failed ["a"] "t" "x" rfl rfl

/-- C9: the GENERATE-mode prompt construction is a pure function of the
question, schema and table name: two calls with equal inputs give
byte-identical prompt text. -/
theorem generate_prompt_deterministic (q1 q2 : String) (s1 s2 : List SchemaField)
    (t1 t2 : String) (hq : q1 = q2) (hs : s1 = s2) (ht : t1 = t2) :
    build_generate_prompt q1 s1 t1 = build_generate_prompt q2 s2 t2 := by
  subst hq hs ht
  rfl

/-- C9, witness: the sales question against a one-column schema. -/
theorem generate_prompt_deterministic_witness :
    build_generate_prompt "top category by sales"
      [⟨"Region", some "String", none⟩] "sales_data" =
    build_generate_prompt "top category by sales"
      [⟨"Region", some "String", none⟩] "sales_data" :=
  generate_prompt_deterministic _ _ _ _ _ _ rfl rfl rfl

/-- C10: appending a trailing identifier to any candidate changes nothing
in what the extraction captures (from any scan state), because a capture
needs a non-identifier character after the identifier; in particular the
table name at the end of `SELECT Region FROM sales_data` is never
extracted — only `Region` is — and the candidate validates against the
schema `[Region]`. -/
theorem trailing_identifier_never_extracted :
    (∀ (w cs : List Char) (st : ScanSt), (∀ c ∈ w, isIdentChar c = true) →
      scanGo st (cs ++ w) = scanGo st cs) ∧
    findFields "SELECT Region FROM sales_data" = ["Region"] ∧
    validate_query "SELECT Region FROM sales_data" ["Region"] = true := by
  refine ⟨fun w cs st hw => scanGo_append_ident hw cs st, by decide, by decide⟩

/-- C10, witness: appending the table name `sales_data` to the prefix
ending in a space extracts nothing new. -/
theorem trailing_identifier_never_extracted_witness :
    scanGo .noFlank ("SELECT Region FROM ".data ++ "sales_data".data) =
      scanGo .noFlank "SELECT Region FROM ".data ∧
    findFields "SELECT Region FROM sales_data" = ["Region"] :=
  ⟨trailing_identifier_never_extracted.1 "sales_data".data "SELECT Region FROM ".data
      .noFlank (by decide),
   trailing_identifier_never_extracted.2.1⟩
